import Mathlib

/-!
Verification of the coffee/toast concurrency demos.

The source programs run two simulated work units ("coffee", 2000 ms and
"toast", 3000 ms) either sequentially (`Program_01_async::Run`),
concurrently without output synchronization (`Program::Run` in
`multithreading/02_async/main.cpp`), or concurrently with a mutex guarding
the start-message writes (`Program_03_async_cout_mutex::Run`).  The entry
point (`main` in `code_examples/concurrency/main.cpp`) prints a banner,
switches on an integer program id (1, 2, 3; anything else does nothing)
and returns 0.

Each unit's behavior is embedded as a script of atomic steps (console
write, sleep, mutex acquire, mutex release).  Timing is idealized: a sleep
takes exactly its argument in milliseconds and every other step takes no
time.  Concurrent executions are modelled two ways: a timed-interleaving
relation on the write events (for timing and output-order properties) and
a small-step machine with an explicit lock holder and acquire/release
counters (for the mutual-exclusion properties).
-/

namespace CoffeeToast

/-- A unit of simulated work: a name and a blocking duration in
milliseconds, as constructed in the `CreateCoffee`/`CreateToast` bodies. -/
structure WorkUnit where
  name : String
  durationMillis : Nat
deriving DecidableEq

/-- The start message written before the sleep: `"Creating {name}..."`. -/
def startMsg (u : WorkUnit) : String := "Creating " ++ u.name ++ "..."

/-- The finish message written after the sleep: `"Created {name}!"`. -/
def finishMsg (u : WorkUnit) : String := "Created " ++ u.name ++ "!"

/-- One atomic observable action of a unit's body. -/
inductive Step where
  | write (line : String)
  | sleep (ms : Nat)
  | acquire
  | release
deriving DecidableEq

/-- The body of an unsynchronized unit (`CreateCoffee`/`CreateToast` in
`01_sync.h` and `multithreading/02_async/main.cpp`): start write, sleep,
finish write. -/
def unitScript (u : WorkUnit) : List Step :=
  [Step.write (startMsg u), Step.sleep u.durationMillis, Step.write (finishMsg u)]

/-- The body of a synchronized unit (`03_async_cout_mutex.h`): the
`lock_guard` scope around the start write, then the sleep and the
unguarded finish write. -/
def unitScriptSync (u : WorkUnit) : List Step :=
  [Step.acquire, Step.write (startMsg u), Step.release,
   Step.sleep u.durationMillis, Step.write (finishMsg u)]

/-- The coffee unit: 2000 ms. -/
def coffee : WorkUnit := ⟨"coffee", 2000⟩

/-- The toast unit: 3000 ms. -/
def toast : WorkUnit := ⟨"toast", 3000⟩

/-- The fixed workload of every program in the repository. -/
def workload : List WorkUnit := [coffee, toast]

/-- Idealized cost of one step: a sleep takes its duration, writes and
lock operations take no time. -/
def stepMillis : Step → Nat
  | Step.sleep ms => ms
  | _ => 0

/-- Total idealized running time of a script. -/
def scriptMillis (scr : List Step) : Nat := (scr.map stepMillis).sum

/-- The console lines a script writes, in order. -/
def scriptWrites (scr : List Step) : List String :=
  scr.filterMap fun s =>
    match s with
    | Step.write line => some line
    | _ => none

/-- `duration_cast<seconds>` applied to a nonnegative millisecond count:
integer division by 1000 (truncation toward zero). -/
def elapsedSecondsOf (ms : Nat) : Nat := ms / 1000

/-- The final report line `"Total time = {N} seconds"`. -/
def totalLine (ms : Nat) : String :=
  "Total time = " ++ toString (elapsedSecondsOf ms) ++ " seconds"

/-- Sequential execution (`Program_01_async::Run` generalized to a list of
units): each unit's body runs to completion in order on one thread. -/
def seqTrace (units : List WorkUnit) : List Step := (units.map unitScript).flatten

/-- Elapsed wall-clock time of a sequential run under the idealized cost
model. -/
def seqElapsedMillis (units : List WorkUnit) : Nat := scriptMillis (seqTrace units)

/-- Console output of a sequential run: every unit's writes in order, then
the total-time line. -/
def seqOutput (units : List WorkUnit) : List String :=
  scriptWrites (seqTrace units) ++ [totalLine (seqElapsedMillis units)]

/-- Elapsed time of a concurrent run: the programs launch one thread per
unit and `get` both futures, so the run ends when the longest unit ends. -/
def concElapsedMillis (units : List WorkUnit) : Nat :=
  (units.map fun u => scriptMillis (unitScript u)).foldr Nat.max 0

/-- The three scheduler behaviors selected by `main`. -/
inductive ExecutionMode where
  | sequential
  | concurrentUnsync
  | concurrentSync
deriving DecidableEq

/-- The `switch (programId)` in `main`: 1, 2, 3 select a program, any
other value falls through to nothing. -/
def modeOfProgramId (id : Int) : Option ExecutionMode :=
  if id = 1 then some ExecutionMode.sequential
  else if id = 2 then some ExecutionMode.concurrentUnsync
  else if id = 3 then some ExecutionMode.concurrentSync
  else none

/-- The banner `main` prints before the switch:
`std::format("Running program , {}...", programId)`. -/
def bannerLine (id : Int) : String :=
  "Running program , " ++ toString id ++ "..."

/-- Write events of a script with idealized timestamps, given the thread's
start time: a write is stamped with the local clock, a sleep advances it. -/
def timedWrites : Nat → List Step → List (Nat × String)
  | _, [] => []
  | t, Step.write line :: rest => (t, line) :: timedWrites t rest
  | t, Step.sleep ms :: rest => timedWrites (t + ms) rest
  | t, Step.acquire :: rest => timedWrites t rest
  | t, Step.release :: rest => timedWrites t rest

/-- An interleaving of two event lists preserving each one's order. -/
inductive Interleave {α : Type} : List α → List α → List α → Prop where
  | nil : Interleave [] [] []
  | left {x : α} {xs ys zs : List α} :
      Interleave xs ys zs → Interleave (x :: xs) ys (x :: zs)
  | right {y : α} {xs ys zs : List α} :
      Interleave xs ys zs → Interleave xs (y :: ys) (y :: zs)

/-- A timed event list is consistent with real time when timestamps never
decrease. -/
def TimeOrdered (l : List (Nat × String)) : Prop :=
  l.Chain' fun a b => a.1 ≤ b.1

/-- The possible console outputs of a concurrent run launching the two
scripts `s₁` and `s₂` on their own threads: some real-time-consistent
interleaving of the two threads' writes, then the total-time line. -/
def ConcOutputOf (s₁ s₂ : List Step) (out : List String) : Prop :=
  ∃ m, Interleave (timedWrites 0 s₁) (timedWrites 0 s₂) m ∧
    TimeOrdered m ∧ out = m.map Prod.snd ++ [totalLine (concElapsedMillis workload)]

/-- The possible console outputs of the unsynchronized concurrent program
(`multithreading/02_async/main.cpp`). -/
def ConcOutputUnsync (out : List String) : Prop :=
  ConcOutputOf (unitScript coffee) (unitScript toast) out

/-- The possible console outputs of the synchronized concurrent program
(`03_async_cout_mutex.h`). -/
def ConcOutputSync (out : List String) : Prop :=
  ConcOutputOf (unitScriptSync coffee) (unitScriptSync toast) out

/-- A canonical time-ordered interleaving of the two threads' writes. -/
def canonicalMerge : List (Nat × String) :=
  [(0, startMsg coffee), (0, startMsg toast),
   (2000, finishMsg coffee), (3000, finishMsg toast)]

/-- A canonical concurrent-run output (used as the representative output
of the two concurrent modes). -/
def canonicalConcOutput : List String :=
  canonicalMerge.map Prod.snd ++ [totalLine (concElapsedMillis workload)]

/-- Representative console output of each mode's `Run`. -/
def modeOutput : ExecutionMode → List String
  | ExecutionMode.sequential => seqOutput workload
  | ExecutionMode.concurrentUnsync => canonicalConcOutput
  | ExecutionMode.concurrentSync => canonicalConcOutput

/-- Console output of `main` for a given program id: the banner, then the
selected program's output (nothing when the id is unrecognized). -/
def mainOutput (id : Int) : List String :=
  bannerLine id ::
    (match modeOfProgramId id with
     | some m => modeOutput m
     | none => [])

/-- `main` for a given program id: its console output and its return
value, which is the literal `return 0` on every path. -/
def mainRun (id : Int) : List String × Int :=
  (mainOutput id, 0)

end CoffeeToast

namespace CoffeeToast

/- ### Helper lemmas -/

theorem scriptMillis_append (a b : List Step) :
    scriptMillis (a ++ b) = scriptMillis a + scriptMillis b := by
  simp [scriptMillis]

theorem scriptMillis_unitScript (u : WorkUnit) :
    scriptMillis (unitScript u) = u.durationMillis := by
  simp [scriptMillis, unitScript, stepMillis]

theorem seqElapsed_eq_sum (units : List WorkUnit) :
    seqElapsedMillis units = (units.map WorkUnit.durationMillis).sum := by
  induction units with
  | nil => rfl
  | cons u us ih =>
    simpa [seqElapsedMillis, seqTrace, scriptMillis_append,
      scriptMillis_unitScript, seqElapsedMillis] using congrArg (u.durationMillis + ·) ih

end CoffeeToast

namespace CoffeeToast

/- ### Claims about the sequential program and the runner -/

/-- Claim C2: in Sequential mode the elapsed time is the sum of the units'
durations, and on the fixed workload the output is exactly the five lines
"Creating coffee...", "Created coffee!", "Creating toast...",
"Created toast!", "Total time = 5 seconds". -/
theorem claim_C2_sequential_sum_and_output :
    (∀ units : List WorkUnit,
        seqElapsedMillis units = (units.map WorkUnit.durationMillis).sum) ∧
    seqElapsedMillis workload = 5000 ∧
    seqOutput workload =
      ["Creating coffee...", "Created coffee!", "Creating toast...",
       "Created toast!", "Total time = 5 seconds"] := by
  refine ⟨seqElapsed_eq_sum, by decide, by decide⟩

/-- Claim C6: the runner maps id 1 to Sequential, 2 to
ConcurrentUnsynchronized and 3 to ConcurrentSynchronized, and for every
other integer id it performs no work: the output is the banner alone, with
no unit lines and no total-time line. -/
theorem claim_C6_mode_dispatch :
    modeOfProgramId 1 = some ExecutionMode.sequential ∧
    modeOfProgramId 2 = some ExecutionMode.concurrentUnsync ∧
    modeOfProgramId 3 = some ExecutionMode.concurrentSync ∧
    ∀ id : Int, id ≠ 1 → id ≠ 2 → id ≠ 3 →
      modeOfProgramId id = none ∧ mainOutput id = [bannerLine id] := by
  refine ⟨rfl, rfl, rfl, ?_⟩
  intro id h1 h2 h3
  have hm : modeOfProgramId id = none := by
    simp [modeOfProgramId, h1, h2, h3]
  exact ⟨hm, by simp [mainOutput, hm]⟩

/-- Claim C6, witness: id 42 is unrecognized and produces only the
banner. -/
theorem claim_C6_mode_dispatch_witness :
    modeOfProgramId 42 = none ∧ mainOutput 42 = [bannerLine 42] :=
  claim_C6_mode_dispatch.2.2.2 42 (by decide) (by decide) (by decide)

/-- Claim C8: `main` returns 0 for every program id, including the
unrecognized-mode no-op case. -/
theorem claim_C8_exit_code_zero :
    ∀ id : Int, (mainRun id).2 = 0 := fun _ => rfl

/-- Claim C9: the reported seconds count is the elapsed milliseconds
divided by 1000 with truncation toward zero (the floor for nonnegative
input): it underestimates by less than one second, and 5999 ms reports
"Total time = 5 seconds". -/
theorem claim_C9_truncated_seconds :
    (∀ ms : Nat, 1000 * elapsedSecondsOf ms ≤ ms ∧ ms < 1000 * (elapsedSecondsOf ms + 1)) ∧
    elapsedSecondsOf 5999 = 5 ∧
    totalLine 5999 = "Total time = 5 seconds" := by
  refine ⟨fun ms => ?_, by decide, by decide⟩
  unfold elapsedSecondsOf
  omega

/-- Claim C10: for every program id, the first console line is the banner
"Running program , {id}...", written before any unit output and also when
the id is unrecognized and nothing else runs; the banner is distinct from
every line of the specified output contract. -/
theorem claim_C10_banner_first :
    (∀ id : Int, ∃ rest, mainOutput id = bannerLine id :: rest) ∧
    (∀ id : Int, (mainOutput id).head? = some (bannerLine id)) ∧
    (∀ id : Int, ∀ u : WorkUnit,
        bannerLine id ≠ startMsg u ∧ bannerLine id ≠ finishMsg u) ∧
    (∀ id : Int, ∀ ms : Nat, bannerLine id ≠ totalLine ms) := by
  refine ⟨fun id => ⟨_, rfl⟩, fun id => rfl, fun id u => ⟨?_, ?_⟩, fun id ms => ?_⟩
  · intro h
    have := congrArg (fun s => s.data.take 3) h
    simp [bannerLine, startMsg] at this
  · intro h
    have := congrArg (fun s => s.data.take 3) h
    simp [bannerLine, finishMsg] at this
  · intro h
    have := congrArg (fun s => s.data.take 3) h
    simp [bannerLine, totalLine] at this

end CoffeeToast

namespace CoffeeToast

/- ### Interleaving lemmas -/

theorem interleave_sublist_left {α : Type} {xs ys zs : List α}
    (h : Interleave xs ys zs) : xs.Sublist zs := by
  induction h with
  | nil => exact List.Sublist.refl []
  | left _ ih => exact ih.cons₂ _
  | right _ ih => exact ih.cons _

theorem interleave_sublist_right {α : Type} {xs ys zs : List α}
    (h : Interleave xs ys zs) : ys.Sublist zs := by
  induction h with
  | nil => exact List.Sublist.refl []
  | left _ ih => exact ih.cons _
  | right _ ih => exact ih.cons₂ _

theorem pairwise_pair_sublist (x y : Nat × String) :
    ∀ m : List (Nat × String), m.Pairwise (fun a b => a.1 ≤ b.1) →
      x ∈ m → y ∈ m → x.1 < y.1 → [x, y].Sublist m := by
  intro m
  induction m with
  | nil => intro _ hx _ _; cases hx
  | cons hd tl ih =>
    intro hp hx hy hxy
    rcases List.pairwise_cons.mp hp with ⟨hhd, htl⟩
    rcases List.mem_cons.mp hx with rfl | hx2
    · rcases List.mem_cons.mp hy with rfl | hy2
      · exact absurd hxy (lt_irrefl _)
      · exact (List.singleton_sublist.mpr hy2).cons₂ _
    · rcases List.mem_cons.mp hy with rfl | hy2
      · exact absurd (hhd x hx2) (by omega)
      · exact (ih htl hx2 hy2 hxy).cons _

/-- In a time-ordered event list, an event with a strictly earlier
timestamp appears before one with a later timestamp. -/
theorem timeOrdered_pair_sublist {m : List (Nat × String)} (hm : TimeOrdered m)
    {x y : Nat × String} (hx : x ∈ m) (hy : y ∈ m) (hxy : x.1 < y.1) :
    [x, y].Sublist m := by
  haveI : IsTrans (Nat × String) (fun a b => a.1 ≤ b.1) :=
    ⟨fun _ _ _ hab hbc => le_trans hab hbc⟩
  exact pairwise_pair_sublist x y m (List.chain'_iff_pairwise.mp hm) hx hy hxy

/-- Lift an ordered pair of timed events into the final console output,
keeping the trailing total-time line after both. -/
theorem pair_before_total {m : List (Nat × String)} (hm : TimeOrdered m)
    {x y : Nat × String} (hx : x ∈ m) (hy : y ∈ m) (hxy : x.1 < y.1) (tot : String) :
    [x.2, y.2, tot].Sublist (m.map Prod.snd ++ [tot]) := by
  have h2 : [x.2, y.2].Sublist (m.map Prod.snd) := by
    simpa using (timeOrdered_pair_sublist hm hx hy hxy).map Prod.snd
  simpa using List.Sublist.append h2 (List.Sublist.refl [tot])

theorem pair_in_output {m : List (Nat × String)} (hm : TimeOrdered m)
    {x y : Nat × String} (hx : x ∈ m) (hy : y ∈ m) (hxy : x.1 < y.1) (tot : String) :
    [x.2, y.2].Sublist (m.map Prod.snd ++ [tot]) := by
  have h2 : [x.2, y.2].Sublist (m.map Prod.snd) := by
    simpa using (timeOrdered_pair_sublist hm hx hy hxy).map Prod.snd
  exact h2.trans (List.sublist_append_left _ _)

theorem timedWrites_unitScript (u : WorkUnit) :
    timedWrites 0 (unitScript u) = [(0, startMsg u), (u.durationMillis, finishMsg u)] := by
  simp [timedWrites, unitScript]

theorem timedWrites_unitScriptSync (u : WorkUnit) :
    timedWrites 0 (unitScriptSync u) = [(0, startMsg u), (u.durationMillis, finishMsg u)] := by
  simp [timedWrites, unitScriptSync]

/-- The canonical merge is a valid unsynchronized concurrent output. -/
theorem canonicalConcOutput_unsync : ConcOutputUnsync canonicalConcOutput := by
  refine ⟨canonicalMerge, ?_, ?_, rfl⟩
  · rw [show timedWrites 0 (unitScript coffee) =
        [(0, startMsg coffee), (2000, finishMsg coffee)] from timedWrites_unitScript coffee,
      show timedWrites 0 (unitScript toast) =
        [(0, startMsg toast), (3000, finishMsg toast)] from timedWrites_unitScript toast]
    exact .left (.right (.left (.right .nil)))
  · simp [TimeOrdered, canonicalMerge, List.chain'_cons]

/-- The canonical merge is also a valid synchronized concurrent output. -/
theorem canonicalConcOutput_sync : ConcOutputSync canonicalConcOutput := by
  refine ⟨canonicalMerge, ?_, ?_, rfl⟩
  · rw [show timedWrites 0 (unitScriptSync coffee) =
        [(0, startMsg coffee), (2000, finishMsg coffee)] from timedWrites_unitScriptSync coffee,
      show timedWrites 0 (unitScriptSync toast) =
        [(0, startMsg toast), (3000, finishMsg toast)] from timedWrites_unitScriptSync toast]
    exact .left (.right (.left (.right .nil)))
  · simp [TimeOrdered, canonicalMerge, List.chain'_cons]

/-- The steps of a script that are unit work (writes and sleeps), with the
lock operations removed. -/
def workSteps (scr : List Step) : List Step :=
  scr.filter fun s =>
    match s with
    | Step.acquire => false
    | Step.release => false
    | _ => true

/-- Start-before-finish for one thread of a concurrent run: an
interleaving preserves the thread's own write order, whatever the
scheduling. -/
theorem concOutputOf_start_before_finish {s₁ s₂ : List Step} {out : List String}
    (h : ConcOutputOf s₁ s₂ out) (u : WorkUnit)
    (hmem : timedWrites 0 s₁ = [(0, startMsg u), (u.durationMillis, finishMsg u)] ∨
            timedWrites 0 s₂ = [(0, startMsg u), (u.durationMillis, finishMsg u)]) :
    [startMsg u, finishMsg u].Sublist out := by
  rcases h with ⟨m, hI, _, rfl⟩
  have hsub : [(0, startMsg u), (u.durationMillis, finishMsg u)].Sublist m := by
    rcases hmem with he | he
    · have hs := interleave_sublist_left hI
      rwa [he] at hs
    · have hs := interleave_sublist_right hI
      rwa [he] at hs
  have h2 : [startMsg u, finishMsg u].Sublist (m.map Prod.snd) := by
    simpa using hsub.map Prod.snd
  exact h2.trans (List.sublist_append_left _ _)

end CoffeeToast

namespace CoffeeToast

/-- Claim C1: every unit's body performs, in order, the start-message
write, the blocking sleep for `durationMillis`, and the finish-message
write (the synchronized variant performs the same three work steps, with
the guard operations only around the start write); consequently, in every
execution mode — sequential, concurrent unsynchronized and concurrent
synchronized — each unit's "Creating {name}..." line appears in the
console output before its own "Created {name}!" line. -/
theorem claim_C1_three_steps_start_before_finish :
    (∀ u : WorkUnit, unitScript u =
      [Step.write (startMsg u), Step.sleep u.durationMillis, Step.write (finishMsg u)]) ∧
    (∀ u : WorkUnit, workSteps (unitScriptSync u) = unitScript u) ∧
    ([startMsg coffee, finishMsg coffee].Sublist (seqOutput workload) ∧
     [startMsg toast, finishMsg toast].Sublist (seqOutput workload)) ∧
    (∀ out, ConcOutputUnsync out →
      [startMsg coffee, finishMsg coffee].Sublist out ∧
      [startMsg toast, finishMsg toast].Sublist out) ∧
    (∀ out, ConcOutputSync out →
      [startMsg coffee, finishMsg coffee].Sublist out ∧
      [startMsg toast, finishMsg toast].Sublist out) := by
  refine ⟨fun u => rfl, fun u => rfl, ⟨by decide, by decide⟩,
    fun out h => ⟨?_, ?_⟩, fun out h => ⟨?_, ?_⟩⟩
  · exact concOutputOf_start_before_finish h coffee (Or.inl (timedWrites_unitScript coffee))
  · exact concOutputOf_start_before_finish h toast (Or.inr (timedWrites_unitScript toast))
  · exact concOutputOf_start_before_finish h coffee (Or.inl (timedWrites_unitScriptSync coffee))
  · exact concOutputOf_start_before_finish h toast (Or.inr (timedWrites_unitScriptSync toast))

/-- Claim C1, witness: the start-before-finish conclusions instantiated at
a concrete valid output of each concurrent mode. -/
theorem claim_C1_witness :
    ([startMsg coffee, finishMsg coffee].Sublist canonicalConcOutput ∧
     [startMsg toast, finishMsg toast].Sublist canonicalConcOutput) ∧
    ([startMsg coffee, finishMsg coffee].Sublist canonicalConcOutput ∧
     [startMsg toast, finishMsg toast].Sublist canonicalConcOutput) :=
  ⟨claim_C1_three_steps_start_before_finish.2.2.2.1 canonicalConcOutput canonicalConcOutput_unsync,
   claim_C1_three_steps_start_before_finish.2.2.2.2 canonicalConcOutput canonicalConcOutput_sync⟩

/-- Claim C3: on the fixed workload, either concurrent mode finishes in
the maximum duration (3000 ms under the idealized clock), strictly less
than the sequential sum, and in every real-time-consistent output
"Created coffee!" appears before "Created toast!" (the shorter unit
finishes first) and both appear before the total-time line. -/
theorem claim_C3_concurrent_max_and_order :
    concElapsedMillis workload = 3000 ∧
    concElapsedMillis workload < seqElapsedMillis workload ∧
    (∀ out, ConcOutputUnsync out →
      [finishMsg coffee, finishMsg toast,
        totalLine (concElapsedMillis workload)].Sublist out) ∧
    (∀ out, ConcOutputSync out →
      [finishMsg coffee, finishMsg toast,
        totalLine (concElapsedMillis workload)].Sublist out) := by
  refine ⟨by decide, by decide, fun out h => ?_, fun out h => ?_⟩
  · rcases h with ⟨m, hI, hT, rfl⟩
    have hx : (2000, finishMsg coffee) ∈ m := by
      have hs := interleave_sublist_left hI
      rw [timedWrites_unitScript] at hs
      exact hs.subset (by simp [coffee])
    have hy : (3000, finishMsg toast) ∈ m := by
      have hs := interleave_sublist_right hI
      rw [timedWrites_unitScript] at hs
      exact hs.subset (by simp [toast])
    simpa using pair_before_total hT hx hy (by decide) (totalLine (concElapsedMillis workload))
  · rcases h with ⟨m, hI, hT, rfl⟩
    have hx : (2000, finishMsg coffee) ∈ m := by
      have hs := interleave_sublist_left hI
      rw [timedWrites_unitScriptSync] at hs
      exact hs.subset (by simp [coffee])
    have hy : (3000, finishMsg toast) ∈ m := by
      have hs := interleave_sublist_right hI
      rw [timedWrites_unitScriptSync] at hs
      exact hs.subset (by simp [toast])
    simpa using pair_before_total hT hx hy (by decide) (totalLine (concElapsedMillis workload))

/-- Claim C3, witness: the ordering conclusion instantiated at a concrete
valid output of each concurrent mode. -/
theorem claim_C3_witness :
    [finishMsg coffee, finishMsg toast,
      totalLine (concElapsedMillis workload)].Sublist canonicalConcOutput ∧
    [finishMsg coffee, finishMsg toast,
      totalLine (concElapsedMillis workload)].Sublist canonicalConcOutput :=
  ⟨claim_C3_concurrent_max_and_order.2.2.1 canonicalConcOutput canonicalConcOutput_unsync,
   claim_C3_concurrent_max_and_order.2.2.2 canonicalConcOutput canonicalConcOutput_sync⟩

end CoffeeToast

namespace CoffeeToast

/- ### A small-step machine for the synchronized concurrent run -/

/-- State of the concurrent scheduler: the remaining script of each
launched thread (labelled with its thread id), the current mutex holder,
and counters of guard acquisitions and releases performed so far. -/
structure SchedState where
  threads : List (Nat × List Step)
  lockHolder : Option Nat
  acquires : Nat
  releases : Nat

/-- One atomic step of some thread.  Writes and sleeps are always
enabled; constructing a `std::lock_guard` (acquire) is enabled only while
the mutex is free, and destroying it (release) only for the holding
thread. -/
inductive Exec : SchedState → SchedState → Prop where
  | write (pre post : List (Nat × List Step)) (i : Nat) (line : String)
      (rest : List Step) (lk : Option Nat) (a r : Nat) :
      Exec ⟨pre ++ (i, Step.write line :: rest) :: post, lk, a, r⟩
        ⟨pre ++ (i, rest) :: post, lk, a, r⟩
  | sleep (pre post : List (Nat × List Step)) (i ms : Nat)
      (rest : List Step) (lk : Option Nat) (a r : Nat) :
      Exec ⟨pre ++ (i, Step.sleep ms :: rest) :: post, lk, a, r⟩
        ⟨pre ++ (i, rest) :: post, lk, a, r⟩
  | acquire (pre post : List (Nat × List Step)) (i : Nat)
      (rest : List Step) (a r : Nat) :
      Exec ⟨pre ++ (i, Step.acquire :: rest) :: post, none, a, r⟩
        ⟨pre ++ (i, rest) :: post, some i, a + 1, r⟩
  | release (pre post : List (Nat × List Step)) (i : Nat)
      (rest : List Step) (a r : Nat) :
      Exec ⟨pre ++ (i, Step.release :: rest) :: post, some i, a, r⟩
        ⟨pre ++ (i, rest) :: post, none, a, r + 1⟩

/-- Zero or more machine steps. -/
def Reaches : SchedState → SchedState → Prop := Relation.ReflTransGen Exec

/-- Launch threads `i, i+1, ...`, one per unit, each running the
synchronized body (one `std::async` per unit). -/
def launchSync : Nat → List WorkUnit → List (Nat × List Step)
  | _, [] => []
  | i, u :: us => (i, unitScriptSync u) :: launchSync (i + 1) us

/-- Initial state of a synchronized concurrent run: all threads launched,
mutex free, no acquisitions yet. -/
def initSync (units : List WorkUnit) : SchedState :=
  ⟨launchSync 0 units, none, 0, 0⟩

def isAcquire : Step → Bool
  | Step.acquire => true
  | _ => false

def isRelease : Step → Bool
  | Step.release => true
  | _ => false

/-- Guard acquisitions still to be performed by the unfinished threads. -/
def pendingAcquires (ths : List (Nat × List Step)) : Nat :=
  (ths.map fun p => p.2.countP isAcquire).sum

/-- Guard releases still to be performed by the unfinished threads. -/
def pendingReleases (ths : List (Nat × List Step)) : Nat :=
  (ths.map fun p => p.2.countP isRelease).sum

/-- 1 while some thread holds the mutex, 0 while it is free. -/
def holderBit : Option Nat → Nat
  | none => 0
  | some _ => 1

/-- Counter invariant of the machine: the acquisition counter exceeds the
release counter exactly by the holder bit, and both counters plus the
pending operations account for one acquisition and one release per
unit. -/
def LockInv (n : Nat) (s : SchedState) : Prop :=
  s.acquires = s.releases + holderBit s.lockHolder ∧
  s.acquires + pendingAcquires s.threads = n ∧
  s.releases + pendingReleases s.threads = n

theorem exec_lockInv {n : Nat} {s t : SchedState} (h : Exec s t)
    (hs : LockInv n s) : LockInv n t := by
  cases h <;>
    simp [LockInv, pendingAcquires, pendingReleases, holderBit,
      List.countP_cons, isAcquire, isRelease] at hs ⊢ <;>
    omega

theorem reaches_lockInv {n : Nat} {s t : SchedState} (h : Reaches s t)
    (hs : LockInv n s) : LockInv n t := by
  induction h with
  | refl => exact hs
  | tail _ hstep ih => exact exec_lockInv hstep ih

theorem countP_acquire_unitScriptSync (u : WorkUnit) :
    (unitScriptSync u).countP isAcquire = 1 := by
  simp [unitScriptSync, List.countP_cons, isAcquire]

theorem countP_release_unitScriptSync (u : WorkUnit) :
    (unitScriptSync u).countP isRelease = 1 := by
  simp [unitScriptSync, List.countP_cons, isRelease]

theorem pendingAcquires_launchSync (i : Nat) (units : List WorkUnit) :
    pendingAcquires (launchSync i units) = units.length := by
  induction units generalizing i with
  | nil => rfl
  | cons u us ih =>
    have h := ih (i + 1)
    simp only [launchSync, pendingAcquires, List.map_cons, List.sum_cons,
      countP_acquire_unitScriptSync, List.length_cons] at h ⊢
    omega

theorem pendingReleases_launchSync (i : Nat) (units : List WorkUnit) :
    pendingReleases (launchSync i units) = units.length := by
  induction units generalizing i with
  | nil => rfl
  | cons u us ih =>
    have h := ih (i + 1)
    simp only [launchSync, pendingReleases, List.map_cons, List.sum_cons,
      countP_release_unitScriptSync, List.length_cons] at h ⊢
    omega

theorem lockInv_initSync (units : List WorkUnit) :
    LockInv units.length (initSync units) := by
  refine ⟨rfl, ?_, ?_⟩
  · simpa [initSync] using pendingAcquires_launchSync 0 units
  · simpa [initSync] using pendingReleases_launchSync 0 units

theorem holderBit_le_one (o : Option Nat) : holderBit o ≤ 1 := by
  cases o <;> simp [holderBit]

end CoffeeToast

namespace CoffeeToast

/- ### Guard-granularity invariant of the synchronized run -/

/-- A thread whose remaining synchronized script is `rem` currently holds
the guard: it has executed the acquire of its `lock_guard` (4 steps left)
but not yet the release (3 steps left).  The full body has 5 steps. -/
def HoldsGuard (rem : List Step) : Prop :=
  rem.length = 4 ∨ rem.length = 3

theorem suffix_cases_five {a b c d e : Step} {r : List Step}
    (h : r <:+ [a, b, c, d, e]) :
    r = [a, b, c, d, e] ∨ r = [b, c, d, e] ∨ r = [c, d, e] ∨
      r = [d, e] ∨ r = [e] ∨ r = [] := by
  rcases List.suffix_cons_iff.mp h with h1 | h
  · exact Or.inl h1
  rcases List.suffix_cons_iff.mp h with h1 | h
  · exact Or.inr (Or.inl h1)
  rcases List.suffix_cons_iff.mp h with h1 | h
  · exact Or.inr (Or.inr (Or.inl h1))
  rcases List.suffix_cons_iff.mp h with h1 | h
  · exact Or.inr (Or.inr (Or.inr (Or.inl h1)))
  rcases List.suffix_cons_iff.mp h with h1 | h
  · exact Or.inr (Or.inr (Or.inr (Or.inr (Or.inl h1))))
  exact Or.inr (Or.inr (Or.inr (Or.inr (Or.inr (List.suffix_nil.mp h)))))

theorem suffix_of_cons_suffix {x : Step} {l s : List Step}
    (h : (x :: l) <:+ s) : l <:+ s := by
  rcases h with ⟨t, rfl⟩
  exact ⟨t ++ [x], by simp⟩

/-- A write step of the synchronized body happens either under the guard
(the start message, 4 steps left) or after everything else (the finish
message, 1 step left); in both cases the step preserves holding. -/
theorem sync_suffix_write {u : WorkUnit} {line : String} {rest : List Step}
    (h : (Step.write line :: rest) <:+ unitScriptSync u) :
    (HoldsGuard (Step.write line :: rest) ∧ HoldsGuard rest) ∨
    (¬HoldsGuard (Step.write line :: rest) ∧ ¬HoldsGuard rest) := by
  rcases suffix_cases_five h with hc | hc | hc | hc | hc | hc
  · simp [unitScriptSync] at hc
  · left
    have := congrArg List.length hc
    simp at this
    constructor <;> simp [HoldsGuard] <;> omega
  · simp at hc
  · simp at hc
  · right
    have := congrArg List.length hc
    simp at this
    subst this
    constructor <;> simp [HoldsGuard]
  · simp at hc

/-- The sleep of the synchronized body happens with 2 steps left: the
guard is not held before it nor after it. -/
theorem sync_suffix_sleep {u : WorkUnit} {ms : Nat} {rest : List Step}
    (h : (Step.sleep ms :: rest) <:+ unitScriptSync u) :
    ¬HoldsGuard (Step.sleep ms :: rest) ∧ ¬HoldsGuard rest := by
  rcases suffix_cases_five h with hc | hc | hc | hc | hc | hc
  · simp [unitScriptSync] at hc
  · simp [unitScriptSync] at hc
  · simp [unitScriptSync] at hc
  · have := congrArg List.length hc
    simp at this
    constructor <;> simp [HoldsGuard] <;> omega
  · simp [unitScriptSync] at hc
  · simp at hc

/-- The acquire is the first step of the synchronized body: not holding
before, holding after. -/
theorem sync_suffix_acquire {u : WorkUnit} {rest : List Step}
    (h : (Step.acquire :: rest) <:+ unitScriptSync u) :
    ¬HoldsGuard (Step.acquire :: rest) ∧ HoldsGuard rest := by
  rcases suffix_cases_five h with hc | hc | hc | hc | hc | hc
  · have := congrArg List.length hc
    simp [unitScriptSync] at this
    constructor
    · simp [HoldsGuard]
      omega
    · simp [HoldsGuard]
      omega
  · simp [unitScriptSync] at hc
  · simp [unitScriptSync] at hc
  · simp [unitScriptSync] at hc
  · simp [unitScriptSync] at hc
  · simp at hc

/-- The release happens with 3 steps left: holding before, not after. -/
theorem sync_suffix_release {u : WorkUnit} {rest : List Step}
    (h : (Step.release :: rest) <:+ unitScriptSync u) :
    HoldsGuard (Step.release :: rest) ∧ ¬HoldsGuard rest := by
  rcases suffix_cases_five h with hc | hc | hc | hc | hc | hc
  · simp [unitScriptSync] at hc
  · simp [unitScriptSync] at hc
  · have := congrArg List.length hc
    simp [unitScriptSync] at this
    constructor
    · simp [HoldsGuard]
      omega
    · simp [HoldsGuard]
      omega
  · simp [unitScriptSync] at hc
  · simp [unitScriptSync] at hc
  · simp at hc

/-- Invariant of the two-unit synchronized run: the two threads labelled
0 and 1 each execute a suffix of their body, and the mutex holder is
exactly the thread that is between its acquire and its release. -/
def SyncInv (s : SchedState) : Prop :=
  ∃ r₀ r₁, s.threads = [(0, r₀), (1, r₁)] ∧
    r₀ <:+ unitScriptSync coffee ∧ r₁ <:+ unitScriptSync toast ∧
    (s.lockHolder = some 0 ↔ HoldsGuard r₀) ∧
    (s.lockHolder = some 1 ↔ HoldsGuard r₁)

theorem two_thread_decomp {pre post : List (Nat × List Step)}
    {x p q : Nat × List Step} (h : pre ++ x :: post = [p, q]) :
    (pre = [] ∧ x = p ∧ post = [q]) ∨ (pre = [p] ∧ x = q ∧ post = []) := by
  match pre, h with
  | [], h =>
    simp only [List.nil_append, List.cons.injEq] at h
    exact Or.inl ⟨rfl, h.1, h.2⟩
  | [y], h =>
    simp only [List.cons_append, List.nil_append, List.cons.injEq] at h
    exact Or.inr ⟨by rw [h.1], h.2.1, h.2.2⟩
  | y :: z :: rest, h =>
    have hlen := congrArg List.length h
    simp at hlen

end CoffeeToast

namespace CoffeeToast

theorem some_zero_ne_some_one : (some 0 : Option Nat) ≠ some 1 := by decide

theorem some_one_ne_some_zero : (some 1 : Option Nat) ≠ some 0 := by decide

theorem none_ne_some (k : Nat) : (none : Option Nat) ≠ some k := by simp

theorem exec_syncInv {s t : SchedState} (h : Exec s t) (hs : SyncInv s) : SyncInv t := by
  rcases hs with ⟨r₀, r₁, hth, hsf₀, hsf₁, hl₀, hl₁⟩
  cases h with
  | write pre post i line rest lk a r =>
    rcases two_thread_decomp hth with ⟨hpre, hx, hpost⟩ | ⟨hpre, hx, hpost⟩
    · injection hx with hi hr
      subst hpre hpost hi hr
      rcases sync_suffix_write hsf₀ with ⟨hA, hB⟩ | ⟨hA, hB⟩
      · exact ⟨rest, r₁, rfl, suffix_of_cons_suffix hsf₀, hsf₁,
          ⟨fun _ => hB, fun _ => hl₀.mpr hA⟩, hl₁⟩
      · exact ⟨rest, r₁, rfl, suffix_of_cons_suffix hsf₀, hsf₁,
          ⟨fun hk => absurd (hl₀.mp hk) hA, fun hg => absurd hg hB⟩, hl₁⟩
    · injection hx with hi hr
      subst hpre hpost hi hr
      rcases sync_suffix_write hsf₁ with ⟨hA, hB⟩ | ⟨hA, hB⟩
      · exact ⟨r₀, rest, rfl, hsf₀, suffix_of_cons_suffix hsf₁, hl₀,
          ⟨fun _ => hB, fun _ => hl₁.mpr hA⟩⟩
      · exact ⟨r₀, rest, rfl, hsf₀, suffix_of_cons_suffix hsf₁, hl₀,
          ⟨fun hk => absurd (hl₁.mp hk) hA, fun hg => absurd hg hB⟩⟩
  | sleep pre post i ms rest lk a r =>
    rcases two_thread_decomp hth with ⟨hpre, hx, hpost⟩ | ⟨hpre, hx, hpost⟩
    · injection hx with hi hr
      subst hpre hpost hi hr
      rcases sync_suffix_sleep hsf₀ with ⟨hA, hB⟩
      exact ⟨rest, r₁, rfl, suffix_of_cons_suffix hsf₀, hsf₁,
        ⟨fun hk => absurd (hl₀.mp hk) hA, fun hg => absurd hg hB⟩, hl₁⟩
    · injection hx with hi hr
      subst hpre hpost hi hr
      rcases sync_suffix_sleep hsf₁ with ⟨hA, hB⟩
      exact ⟨r₀, rest, rfl, hsf₀, suffix_of_cons_suffix hsf₁, hl₀,
        ⟨fun hk => absurd (hl₁.mp hk) hA, fun hg => absurd hg hB⟩⟩
  | acquire pre post i rest a r =>
    rcases two_thread_decomp hth with ⟨hpre, hx, hpost⟩ | ⟨hpre, hx, hpost⟩
    · injection hx with hi hr
      subst hpre hpost hi hr
      rcases sync_suffix_acquire hsf₀ with ⟨hA, hB⟩
      have hn₁ : ¬HoldsGuard r₁ := fun hg =>
        absurd (hl₁.mpr hg) (none_ne_some 1)
      exact ⟨rest, r₁, rfl, suffix_of_cons_suffix hsf₀, hsf₁,
        ⟨fun _ => hB, fun _ => rfl⟩,
        ⟨fun hk => absurd hk some_zero_ne_some_one, fun hg => absurd hg hn₁⟩⟩
    · injection hx with hi hr
      subst hpre hpost hi hr
      rcases sync_suffix_acquire hsf₁ with ⟨hA, hB⟩
      have hn₀ : ¬HoldsGuard r₀ := fun hg =>
        absurd (hl₀.mpr hg) (none_ne_some 0)
      exact ⟨r₀, rest, rfl, hsf₀, suffix_of_cons_suffix hsf₁,
        ⟨fun hk => absurd hk some_one_ne_some_zero, fun hg => absurd hg hn₀⟩,
        ⟨fun _ => hB, fun _ => rfl⟩⟩
  | release pre post i rest a r =>
    rcases two_thread_decomp hth with ⟨hpre, hx, hpost⟩ | ⟨hpre, hx, hpost⟩
    · injection hx with hi hr
      subst hpre hpost hi hr
      rcases sync_suffix_release hsf₀ with ⟨hA, hB⟩
      have hn₁ : ¬HoldsGuard r₁ := fun hg =>
        absurd (hl₁.mpr hg) some_zero_ne_some_one
      exact ⟨rest, r₁, rfl, suffix_of_cons_suffix hsf₀, hsf₁,
        ⟨fun hk => absurd hk (none_ne_some 0), fun hg => absurd hg hB⟩,
        ⟨fun hk => absurd hk (none_ne_some 1), fun hg => absurd hg hn₁⟩⟩
    · injection hx with hi hr
      subst hpre hpost hi hr
      rcases sync_suffix_release hsf₁ with ⟨hA, hB⟩
      have hn₀ : ¬HoldsGuard r₀ := fun hg =>
        absurd (hl₀.mpr hg) some_one_ne_some_zero
      exact ⟨r₀, rest, rfl, hsf₀, suffix_of_cons_suffix hsf₁,
        ⟨fun hk => absurd hk (none_ne_some 0), fun hg => absurd hg hn₀⟩,
        ⟨fun hk => absurd hk (none_ne_some 1), fun hg => absurd hg hB⟩⟩

theorem reaches_syncInv {s t : SchedState} (h : Reaches s t) (hs : SyncInv s) :
    SyncInv t := by
  induction h with
  | refl => exact hs
  | tail _ hstep ih => exact exec_syncInv hstep ih

theorem syncInv_init : SyncInv (initSync workload) := by
  refine ⟨unitScriptSync coffee, unitScriptSync toast, rfl,
    List.suffix_refl _, List.suffix_refl _, ?_, ?_⟩ <;>
    simp [HoldsGuard, unitScriptSync, initSync, launchSync, workload]

end CoffeeToast

namespace CoffeeToast

/- ### A concrete synchronized run -/

/-- The state reached after thread 0 has taken the guard, written its
start message and released the guard: it is about to sleep, and the
mutex is free. -/
def midSyncState : SchedState :=
  ⟨[(0, [Step.sleep 2000, Step.write (finishMsg coffee)]),
    (1, unitScriptSync toast)], none, 1, 1⟩

/-- The state after both threads have run to completion. -/
def finalSyncState : SchedState := ⟨[(0, []), (1, [])], none, 2, 2⟩

theorem reaches_midSync : Reaches (initSync workload) midSyncState := by
  have s1 : Exec (initSync workload)
      ⟨[(0, [Step.write (startMsg coffee), Step.release, Step.sleep 2000,
          Step.write (finishMsg coffee)]), (1, unitScriptSync toast)], some 0, 1, 0⟩ :=
    Exec.acquire [] [(1, unitScriptSync toast)] 0 _ 0 0
  have s2 : Exec
      ⟨[(0, [Step.write (startMsg coffee), Step.release, Step.sleep 2000,
          Step.write (finishMsg coffee)]), (1, unitScriptSync toast)], some 0, 1, 0⟩
      ⟨[(0, [Step.release, Step.sleep 2000, Step.write (finishMsg coffee)]),
        (1, unitScriptSync toast)], some 0, 1, 0⟩ :=
    Exec.write [] [(1, unitScriptSync toast)] 0 (startMsg coffee) _ (some 0) 1 0
  have s3 : Exec
      ⟨[(0, [Step.release, Step.sleep 2000, Step.write (finishMsg coffee)]),
        (1, unitScriptSync toast)], some 0, 1, 0⟩ midSyncState :=
    Exec.release [] [(1, unitScriptSync toast)] 0 _ 1 0
  exact Relation.ReflTransGen.head s1 (Relation.ReflTransGen.head s2
    (Relation.ReflTransGen.head s3 Relation.ReflTransGen.refl))

theorem reaches_finalSync : Reaches (initSync workload) finalSyncState := by
  have s4 : Exec midSyncState
      ⟨[(0, [Step.sleep 2000, Step.write (finishMsg coffee)]),
        (1, [Step.write (startMsg toast), Step.release, Step.sleep 3000,
          Step.write (finishMsg toast)])], some 1, 2, 1⟩ :=
    Exec.acquire [(0, [Step.sleep 2000, Step.write (finishMsg coffee)])] [] 1 _ 1 1
  have s5 : Exec
      ⟨[(0, [Step.sleep 2000, Step.write (finishMsg coffee)]),
        (1, [Step.write (startMsg toast), Step.release, Step.sleep 3000,
          Step.write (finishMsg toast)])], some 1, 2, 1⟩
      ⟨[(0, [Step.sleep 2000, Step.write (finishMsg coffee)]),
        (1, [Step.release, Step.sleep 3000, Step.write (finishMsg toast)])],
        some 1, 2, 1⟩ :=
    Exec.write [(0, [Step.sleep 2000, Step.write (finishMsg coffee)])] [] 1
      (startMsg toast) _ (some 1) 2 1
  have s6 : Exec
      ⟨[(0, [Step.sleep 2000, Step.write (finishMsg coffee)]),
        (1, [Step.release, Step.sleep 3000, Step.write (finishMsg toast)])],
        some 1, 2, 1⟩
      ⟨[(0, [Step.sleep 2000, Step.write (finishMsg coffee)]),
        (1, [Step.sleep 3000, Step.write (finishMsg toast)])], none, 2, 2⟩ :=
    Exec.release [(0, [Step.sleep 2000, Step.write (finishMsg coffee)])] [] 1 _ 2 1
  have s7 : Exec
      ⟨[(0, [Step.sleep 2000, Step.write (finishMsg coffee)]),
        (1, [Step.sleep 3000, Step.write (finishMsg toast)])], none, 2, 2⟩
      ⟨[(0, [Step.write (finishMsg coffee)]),
        (1, [Step.sleep 3000, Step.write (finishMsg toast)])], none, 2, 2⟩ :=
    Exec.sleep [] [(1, [Step.sleep 3000, Step.write (finishMsg toast)])] 0 2000 _
      none 2 2
  have s8 : Exec
      ⟨[(0, [Step.write (finishMsg coffee)]),
        (1, [Step.sleep 3000, Step.write (finishMsg toast)])], none, 2, 2⟩
      ⟨[(0, []), (1, [Step.sleep 3000, Step.write (finishMsg toast)])], none, 2, 2⟩ :=
    Exec.write [] [(1, [Step.sleep 3000, Step.write (finishMsg toast)])] 0
      (finishMsg coffee) _ none 2 2
  have s9 : Exec
      ⟨[(0, []), (1, [Step.sleep 3000, Step.write (finishMsg toast)])], none, 2, 2⟩
      ⟨[(0, []), (1, [Step.write (finishMsg toast)])], none, 2, 2⟩ :=
    Exec.sleep [(0, [])] [] 1 3000 _ none 2 2
  have s10 : Exec
      ⟨[(0, []), (1, [Step.write (finishMsg toast)])], none, 2, 2⟩ finalSyncState :=
    Exec.write [(0, [])] [] 1 (finishMsg toast) _ none 2 2
  exact Relation.ReflTransGen.trans reaches_midSync
    (Relation.ReflTransGen.head s4 (Relation.ReflTransGen.head s5
      (Relation.ReflTransGen.head s6 (Relation.ReflTransGen.head s7
        (Relation.ReflTransGen.head s8 (Relation.ReflTransGen.head s9
          (Relation.ReflTransGen.head s10 Relation.ReflTransGen.refl)))))))

end CoffeeToast

namespace CoffeeToast

/-- Claim C4: the synchronized body acquires OutputGuard immediately
before its start-message write and releases it before the blocking sleep
begins; and in every reachable state of the synchronized run, a thread
about to sleep or about to perform its finish-message write does not hold
the guard. -/
theorem claim_C4_guard_granularity :
    (∀ u : WorkUnit, unitScriptSync u =
      [Step.acquire, Step.write (startMsg u), Step.release,
       Step.sleep u.durationMillis, Step.write (finishMsg u)]) ∧
    (∀ s : SchedState, Reaches (initSync workload) s →
      ∀ (i : Nat) (rem : List Step), (i, rem) ∈ s.threads →
        ((∃ ms rest, rem = Step.sleep ms :: rest) ∨
         (∃ line, rem = [Step.write line])) →
        s.lockHolder ≠ some i) := by
  refine ⟨fun u => rfl, ?_⟩
  intro s hreach i rem hmem hshape hlk
  rcases reaches_syncInv hreach syncInv_init with ⟨r₀, r₁, hth, hsf₀, hsf₁, hl₀, hl₁⟩
  rw [hth] at hmem
  rcases List.mem_cons.mp hmem with heq | hmem2
  · injection heq with hi hr
    subst hi hr
    have hHG := hl₀.mp hlk
    rcases hshape with ⟨ms, rest, rfl⟩ | ⟨line, rfl⟩
    · exact (sync_suffix_sleep hsf₀).1 hHG
    · simp [HoldsGuard] at hHG
  · rcases List.mem_cons.mp hmem2 with heq | hmem3
    · injection heq with hi hr
      subst hi hr
      have hHG := hl₁.mp hlk
      rcases hshape with ⟨ms, rest, rfl⟩ | ⟨line, rfl⟩
      · exact (sync_suffix_sleep hsf₁).1 hHG
      · simp [HoldsGuard] at hHG
    · simp at hmem3

/-- Claim C4, witness: in the reachable state where thread 0 is about to
sleep, the guard is not held by thread 0. -/
theorem claim_C4_witness : midSyncState.lockHolder ≠ some 0 :=
  claim_C4_guard_granularity.2 midSyncState reaches_midSync 0
    [Step.sleep 2000, Step.write (finishMsg coffee)]
    (by simp [midSyncState])
    (Or.inl ⟨2000, [Step.write (finishMsg coffee)], rfl⟩)

/-- Claim C5: OutputGuard provides mutual exclusion.  In every reachable
state of a synchronized run the acquisition counter exceeds the release
counter exactly by the holder bit — so the number of concurrently held
acquisitions never exceeds one — and a completed run with N units has
performed exactly N acquisitions and N releases (the guard was released
on every exit of the protected write). -/
theorem claim_C5_outputGuard_mutex :
    ∀ (units : List WorkUnit) (s : SchedState), Reaches (initSync units) s →
      (s.acquires = s.releases + holderBit s.lockHolder ∧
       s.acquires ≤ s.releases + 1) ∧
      ((∀ p ∈ s.threads, p.2 = ([] : List Step)) →
        s.acquires = units.length ∧ s.releases = units.length) := by
  intro units s h
  obtain ⟨h1, h2, h3⟩ := reaches_lockInv h (lockInv_initSync units)
  have hbit := holderBit_le_one s.lockHolder
  refine ⟨⟨h1, by omega⟩, fun hc => ?_⟩
  have hA : pendingAcquires s.threads = 0 := by
    unfold pendingAcquires
    apply List.sum_eq_zero
    intro x hx
    rcases List.mem_map.mp hx with ⟨p, hp, rfl⟩
    rw [hc p hp]
    simp
  have hB : pendingReleases s.threads = 0 := by
    unfold pendingReleases
    apply List.sum_eq_zero
    intro x hx
    rcases List.mem_map.mp hx with ⟨p, hp, rfl⟩
    rw [hc p hp]
    simp
  omega

/-- Claim C5, witness: the completed two-unit synchronized run performed
exactly two acquisitions and two releases. -/
theorem claim_C5_witness :
    finalSyncState.acquires = workload.length ∧
    finalSyncState.releases = workload.length :=
  (claim_C5_outputGuard_mutex workload finalSyncState reaches_finalSync).2 (by decide)

end CoffeeToast

namespace CoffeeToast

/- ### Fallible thread creation -/

/-- The only failure class of the core: the concurrency primitive cannot
allocate an execution context (`std::async` failing with
`std::system_error` / `resource_unavailable_try_again`). -/
inductive RunError where
  | resourceExhausted
deriving DecidableEq

/-- Launch one thread per unit in construction order (`CreateCoffee()`
then `CreateToast()` inside `Run`), where `spawnOk` says whether the
underlying execution context can be created.  A failed launch raises
ResourceExhausted at once — modelled as `Except.error`, since no function
in the source catches anything — and no later unit is launched. -/
def spawnAll (spawnOk : WorkUnit → Bool) : List WorkUnit → Except RunError (List (List Step))
  | [] => Except.ok []
  | u :: us =>
    if spawnOk u then
      match spawnAll spawnOk us with
      | Except.ok hs => Except.ok (unitScript u :: hs)
      | Except.error e => Except.error e
    else Except.error RunError.resourceExhausted

/-- The concurrent `Run` with fallible thread creation: on success it
joins every thread and writes the total-time line after all unit writes;
a spawn failure aborts the whole run before any total-time line. -/
def runConcFallible (spawnOk : WorkUnit → Bool) (units : List WorkUnit) :
    Except RunError (List String) :=
  match spawnAll spawnOk units with
  | Except.error e => Except.error e
  | Except.ok hs =>
      Except.ok ((hs.map scriptWrites).flatten ++ [totalLine (concElapsedMillis units)])

/-- The entry point around the concurrent run: `main` installs no
handler, so the error propagates as a fatal termination with no result
and no exit code. -/
def mainConcFallible (spawnOk : WorkUnit → Bool) : Except RunError (List String × Int) :=
  match runConcFallible spawnOk workload with
  | Except.error e => Except.error e
  | Except.ok out => Except.ok (bannerLine 3 :: out, 0)

theorem spawnAll_error {spawnOk : WorkUnit → Bool} {u : WorkUnit} :
    ∀ {us : List WorkUnit}, u ∈ us → spawnOk u = false →
      spawnAll spawnOk us = Except.error RunError.resourceExhausted := by
  intro us
  induction us with
  | nil => intro h; cases h
  | cons v vs ih =>
    intro hmem hfail
    rcases List.mem_cons.mp hmem with rfl | hmem2
    · simp [spawnAll, hfail]
    · by_cases hv : spawnOk v
      · simp [spawnAll, hv, ih hmem2 hfail]
      · simp [spawnAll, hv]

/-- Claim C7: if some unit's execution context cannot be created, the
whole concurrent run aborts with ResourceExhausted, the condition
propagates through the runner as a fatal termination, and no success
output — in particular no total-time line — is produced. -/
theorem claim_C7_resource_exhaustion :
    ∀ (spawnOk : WorkUnit → Bool) (u : WorkUnit), u ∈ workload → spawnOk u = false →
      runConcFallible spawnOk workload = Except.error RunError.resourceExhausted ∧
      mainConcFallible spawnOk = Except.error RunError.resourceExhausted ∧
      ∀ out : List String, runConcFallible spawnOk workload ≠ Except.ok out := by
  intro spawnOk u hmem hfail
  have hrun : runConcFallible spawnOk workload = Except.error RunError.resourceExhausted := by
    simp [runConcFallible, spawnAll_error hmem hfail]
  refine ⟨hrun, ?_, ?_⟩
  · simp [mainConcFallible, hrun]
  · intro out hok
    rw [hrun] at hok
    cases hok

/-- Claim C7, witness: with no thread creatable, the two-unit run aborts
with ResourceExhausted through the runner. -/
theorem claim_C7_witness :
    runConcFallible (fun _ => false) workload = Except.error RunError.resourceExhausted ∧
    mainConcFallible (fun _ => false) = Except.error RunError.resourceExhausted ∧
    ∀ out : List String, runConcFallible (fun _ => false) workload ≠ Except.ok out :=
  claim_C7_resource_exhaustion (fun _ => false) coffee (by decide) rfl

end CoffeeToast

namespace CoffeeToast

/-- Claim C10, witness: the banner conclusions instantiated at concrete
program ids, including an unrecognized one. -/
theorem claim_C10_witness :
    (mainOutput 99).head? = some (bannerLine 99) ∧
    bannerLine 7 ≠ startMsg coffee ∧
    bannerLine 7 ≠ totalLine 5000 :=
  ⟨claim_C10_banner_first.2.1 99, (claim_C10_banner_first.2.2.1 7 coffee).1,
    claim_C10_banner_first.2.2.2 7 5000⟩

end CoffeeToast
